import Mathlib

/-!
Verification development for the secrex signal-derivation and optimization
engine.  The definitions below are shallow embeddings of the functions in
`frame.py` and `objective_function.py`: price columns become `List ℚ`,
string-valued dataframe columns become `List String`, a column produced by a
pandas `shift` (whose first cell is NaN) becomes `List (Option String)` with
`none` for NaN, and a computation that can terminate fatally becomes
`Option`/`Except`.
-/

/-! ### frame.py constants -/

def ZONES : List String := ["High", "Low", "Mid"]

def POSITIONS : List String := ["Long", "Short", "Side"]

def RECOMMENDATIONS : List String := ["B", "S", ""]

/-! ### frame.py: moving averages (`_build_moving_average`)

`adj_close.ewm(span=per, adjust=False).mean()` follows the recurrence
`y0 = x0`, `yt = (1 - a) * y(t-1) + a * xt` with `a = 2 / (span + 1)`.
`adj_close.rolling(window=per, min_periods=1).mean()` is the trailing
average over the last `min (t+1) per` samples. -/

def ewmaFrom (a : ℚ) : ℚ → List ℚ → List ℚ
  | _, [] => []
  | prev, y :: ys =>
      let v := (1 - a) * prev + a * y
      v :: ewmaFrom a v ys

def buildEMA (p : ℕ) (xs : List ℚ) : List ℚ :=
  match xs with
  | [] => []
  | x :: rest => x :: ewmaFrom ((2 : ℚ) / ((p : ℚ) + 1)) x rest

def smaAt (p : ℕ) (xs : List ℚ) (t : ℕ) : ℚ :=
  ((xs.take (t + 1)).drop (t + 1 - p)).sum / (min (t + 1) p : ℚ)

def buildSMA (p : ℕ) (xs : List ℚ) : List ℚ :=
  (List.range xs.length).map (smaAt p xs)

/-! ### frame.py: `_build_ma_differential` (the EMA - SMA column) -/

def buildMADiff (ema sma : List ℚ) : List ℚ :=
  List.zipWith (fun a b => a - b) ema sma

/-! ### frame.py: `_build_buffers` and `_build_zone`

Zone conditions evaluated in source order: `adj_close >= EMA_+` gives High,
then `adj_close <= EMA_-` gives Low, default Mid. -/

def zoneOf (close emaP emaM : ℚ) : String :=
  if emaP ≤ close then "High" else if close ≤ emaM then "Low" else "Mid"

def buildZone (closes emaP emaM : List ℚ) : List String :=
  (closes.zip (emaP.zip emaM)).map (fun c => zoneOf c.1 c.2.1 c.2.2)

/-! ### frame.py: `_build_position` (long strategy)

`np.select` maps High to Long and Low to Side with default the empty
string; cell (0,0) is then overwritten with Side and empty cells are
forward-filled from the previous row. -/

def posSelect (z : String) : String :=
  if z = "High" then "Long" else if z = "Low" then "Side" else ""

def ffill : String → List String → List String
  | _, [] => []
  | prev, x :: rest =>
      let v := if x = "" then prev else x
      v :: ffill v rest

def buildPosition (zones : List String) : List String :=
  match zones.map posSelect with
  | [] => []
  | _ :: rest => "Side" :: ffill "Side" rest

/-! ### frame.py: `_build_recommendation`

The `long_pos_changes` table, scanned in order with break; a pair matched
by no table row raises a ValueError (embedded as `none`).  The finished
column is shifted down one row; the shift puts NaN (embedded `none`) in
row 0 and drops the last computed value. -/

def posPairRec (prev curr : String) : Option String :=
  if prev = "Side" ∧ curr = "Long" then some "B"
  else if prev = "Side" ∧ curr = "Short" then some "S"
  else if prev = "Side" ∧ curr = "Side" then some ""
  else if prev = "Short" ∧ curr = "Long" then some "B"
  else if prev = "Short" ∧ curr = "Short" then some ""
  else if prev = "Short" ∧ curr = "Side" then some ""
  else if prev = "Long" ∧ curr = "Long" then some ""
  else if prev = "Long" ∧ curr = "Short" then some "S"
  else if prev = "Long" ∧ curr = "Side" then some "S"
  else none

def recScan : String → List String → Option (List String)
  | _, [] => some []
  | prev, c :: rest =>
      match posPairRec prev c with
      | none => none
      | some r =>
          match recScan c rest with
          | none => none
          | some rs => some (r :: rs)

def shiftOne (l : List String) : List (Option String) :=
  none :: l.dropLast.map some

def buildRecommendation (pos : List String) : Option (List (Option String)) :=
  match pos with
  | [] => none
  | p0 :: rest =>
      match recScan p0 rest with
      | none => none
      | some tail => some (shiftOne ("" :: tail))

/-! ### frame.py: `_build_derived_data`

Per period: the EMA branch (EMA, buffers, zone, position, recommendation)
runs when the ema flag is set; the SMA branch runs when the sma flag is
set and, inside that branch, unconditionally joins the EMA - SMA
differential, which raises a KeyError when the EMA column is absent.
A non-fixed buffer policy terminates inside `_build_buffers`. -/

structure DerivedCols where
  ema : Option (List ℚ)
  emaPlus : Option (List ℚ)
  emaMinus : Option (List ℚ)
  pos : Option (List String)
  recCol : Option (List (Option String))
  sma : Option (List ℚ)
  diff : Option (List ℚ)
deriving Repr, DecidableEq

def emptyCols : DerivedCols :=
  ⟨none, none, none, none, none, none, none⟩

def buildDerivedData (useEma useSma fixedBuf : Bool) (b : ℚ) (p : ℕ)
    (closes : List ℚ) : Except String DerivedCols :=
  let step1 : Except String DerivedCols :=
    if useEma then
      if fixedBuf then
        let e := buildEMA p closes
        let bp := e.map (fun x => (1 + b) * x)
        let bm := e.map (fun x => (1 - b) * x)
        let z := buildZone closes bp bm
        let ps := buildPosition z
        match buildRecommendation ps with
        | none => .error "Logic error in recommendation calculation"
        | some r =>
            .ok { emptyCols with
                   ema := some e, emaPlus := some bp, emaMinus := some bm,
                   pos := some ps, recCol := some r }
      else .error "3D OF not implemented"
    else .ok emptyCols
  match step1 with
  | .error m => .error m
  | .ok c1 =>
      if useSma then
        let s := buildSMA p closes
        match c1.ema with
        | some e => .ok { c1 with sma := some s, diff := some (buildMADiff e s) }
        | none => .error "Columns EMA or SMA are missing"
      else .ok c1

/-! ### frame.py: `_build_MAD`

`rolling(window=w).mean()` without `min_periods` is NaN until the window
is full; pandas rejects a window of size zero.  The signal column is
`(SHORT_MAD > LONG_MAD).astype(int)`, with NaN comparisons false. -/

def rollingMeanAt (w : ℕ) (xs : List ℚ) (t : ℕ) : Option ℚ :=
  if w ≠ 0 ∧ w ≤ t + 1 then
    some (((xs.take (t + 1)).drop (t + 1 - w)).sum / (w : ℚ))
  else none

def madSignal (s l : ℕ) (xs : List ℚ) : List ℤ :=
  (List.range xs.length).map (fun t =>
    match rollingMeanAt s xs t, rollingMeanAt l xs t with
    | some a, some b => if b < a then 1 else 0
    | _, _ => 0)

def buildMAD (s l : ℕ) (xs : List ℚ) : Except String (List ℤ) :=
  if s = 0 ∨ l = 0 then .error "window must be an integer greater than 0"
  else .ok (madSignal s l xs)

/-! ### objective_function.py: `_sum_tx` and the per-period gain

`df.groupby(col).size()` drops NaN rows; indexing the resulting series at
a label with zero occurrences raises a KeyError, which the blanket except
clause turns into a fatal terminate (embedded as `none`).  When the B and
S counts differ by exactly one the final close is added to the short leg;
any other combination returns the raw sums. -/

def sumBy (col : List (Option String)) (closes : List ℚ) (r : String) : ℚ :=
  (((col.zip closes).filter (fun x => x.1 == some r)).map (fun x => x.2)).sum

def countBy (col : List (Option String)) (r : String) : ℕ :=
  col.countP (fun x => x == some r)

def sumTx (col : List (Option String)) (closes : List ℚ) : Option (ℚ × ℚ) :=
  let buys := sumBy col closes "B"
  let sells := sumBy col closes "S"
  let nB := countBy col "B"
  let nS := countBy col "S"
  if nB = 0 ∨ nS = 0 then none
  else if nB = nS + 1 then some (buys, sells + (closes.getLast?).getD 0)
  else if nB + 1 = nS then some (buys + (closes.getLast?).getD 0, sells)
  else some (buys, sells)

def gainForPeriod (col : List (Option String)) (closes : List ℚ) : Option ℚ :=
  match (col.zip closes).find? (fun x => x.1 == some "B") with
  | none => none
  | some fb =>
      match sumTx col closes with
      | none => none
      | some bs => some ((bs.2 - bs.1) / fb.2)

/-! ### objective_function.py: `_build_maxima` and `_extract_max`

`gains.shift(1) <= gains` and `gains.shift(-1) <= gains`: the shifted
neighbour is NaN at the series ends and a NaN comparison is false.  The
max column keeps the gain where both comparisons hold and NaN elsewhere;
`_extract_max` fills the NaNs with 0 and takes `idxmax`, the first index
attaining the maximum. -/

def nanLe (a : Option ℚ) (b : ℚ) : Bool :=
  match a with
  | none => false
  | some x => decide (x ≤ b)

def maxAt (gains : List ℚ) (i : ℕ) : Option ℚ :=
  let g := gains.getD i 0
  let prev : Option ℚ := if i = 0 then none else gains[i - 1]?
  if nanLe prev g && nanLe gains[i + 1]? g then some g else none

def buildMaxCol (gains : List ℚ) : List (Option ℚ) :=
  (List.range gains.length).map (maxAt gains)

def fillMax (gains : List ℚ) : List ℚ :=
  (buildMaxCol gains).map (fun o => o.getD 0)

def idxmaxAux : ℕ → ℕ → ℚ → List ℚ → ℕ
  | _, best, _, [] => best
  | i, best, bv, x :: xs =>
      if bv < x then idxmaxAux (i + 1) i x xs else idxmaxAux (i + 1) best bv xs

def periodAtGlobalMax (perMin : ℕ) (gains : List ℚ) : Option ℕ :=
  match fillMax gains with
  | [] => none
  | x :: xs => some (perMin + idxmaxAux 1 0 x xs)

def globalMaxGain (gains : List ℚ) : ℚ :=
  match fillMax gains with
  | [] => 0
  | x :: xs => xs.foldl max x

/-- Modelled from the spec, not from the source, for comparison with
`periodAtGlobalMax`: the full set of periods attaining the global maximum
gain ("report as a set, not a single value"). -/
def specGlobalMaxPeriods (perMin : ℕ) (gains : List ℚ) : List ℕ :=
  let filled := fillMax gains
  ((List.range filled.length).filter
    (fun i => filled.getD i 0 == globalMaxGain gains)).map (fun i => perMin + i)

/-! ### Helper lemmas -/

theorem buildMaxCol_getElem (gains : List ℚ) (i : ℕ) (h : i < gains.length) :
    (buildMaxCol gains)[i]? = some (maxAt gains i) := by
  simp [buildMaxCol, List.getElem?_range h]

theorem posPairRec_isSome (p c : String)
    (hp : p = "Long" ∨ p = "Short" ∨ p = "Side")
    (hc : c = "Long" ∨ c = "Short" ∨ c = "Side") :
    (posPairRec p c).isSome = true := by
  rcases hp with rfl | rfl | rfl <;> rcases hc with rfl | rfl | rfl <;> decide

theorem recScan_spec (l : List String) : ∀ (prev : String),
    (∀ x ∈ l, x = "Long" ∨ x = "Short" ∨ x = "Side") →
    (prev = "Long" ∨ prev = "Short" ∨ prev = "Side") →
    ∃ res, recScan prev l = some res ∧ res.length = l.length ∧
      ∀ j, j < l.length →
        res[j]? = posPairRec ((prev :: l).getD j "") (l.getD j "") := by
  induction l with
  | nil =>
      intro prev _ _
      exact ⟨[], rfl, rfl, fun j hj => by simp at hj⟩
  | cons c rest ih =>
      intro prev hmem hprev
      have hc : c = "Long" ∨ c = "Short" ∨ c = "Side" := hmem c (by simp)
      have hrest : ∀ x ∈ rest, x = "Long" ∨ x = "Short" ∨ x = "Side" :=
        fun x hx => hmem x (by simp [hx])
      obtain ⟨r, hr⟩ := Option.isSome_iff_exists.1 (posPairRec_isSome prev c hprev hc)
      obtain ⟨rs, hrs, hlen, hidx⟩ := ih c hrest hc
      refine ⟨r :: rs, ?_, by simp [hlen], ?_⟩
      · simp [recScan, hr, hrs]
      · intro j hj
        cases j with
        | zero => simp [hr]
        | succ j =>
            have h := hidx j (by simpa using hj)
            simpa using h

theorem buildRec_spec (pos : List String) (hne : pos ≠ [])
    (hmem : ∀ x ∈ pos, x = "Long" ∨ x = "Short" ∨ x = "Side") :
    ∃ out, buildRecommendation pos = some out ∧ out.length = pos.length ∧
      out[0]? = some none ∧
      ∀ t, 2 ≤ t → t < pos.length →
        out[t]? = some (posPairRec (pos.getD (t - 2) "") (pos.getD (t - 1) "")) := by
  match pos, hne with
  | p0 :: rest, _ =>
      have hp0 : p0 = "Long" ∨ p0 = "Short" ∨ p0 = "Side" := hmem p0 (by simp)
      obtain ⟨tail, htail, hlen, hidx⟩ :=
        recScan_spec rest p0 (fun x hx => hmem x (by simp [hx])) hp0
      refine ⟨shiftOne ("" :: tail), ?_, ?_, by simp [shiftOne], ?_⟩
      · simp [buildRecommendation, htail]
      · simp [shiftOne, hlen]
      · intro t ht2 htlt
        obtain ⟨u, rfl⟩ : ∃ u, t = u + 2 := ⟨t - 2, by omega⟩
        simp only [List.length_cons] at htlt
        have htlen : u < tail.length := by omega
        have hlt : u + 1 < ("" :: tail).length - 1 := by
          simp only [List.length_cons]
          omega
        have hdl : ("" :: tail).dropLast[u + 1]? = ("" :: tail)[u + 1]? := by
          rw [List.getElem?_dropLast, if_pos hlt]
        have hval : tail[u]? =
            posPairRec ((p0 :: rest).getD u "") (rest.getD u "") :=
          hidx u (hlen ▸ htlen)
        have hshift : (shiftOne ("" :: tail))[u + 2]? =
            Option.map some (("" :: tail).dropLast[u + 1]?) := by
          rw [shiftOne, List.getElem?_cons_succ, List.getElem?_map]
        have hv := List.getElem?_eq_getElem htlen
        simp only [Nat.add_sub_cancel]
        rw [hshift, hdl, List.getElem?_cons_succ,
          show u + 2 - 1 = u + 1 from by omega, List.getD_cons_succ, ← hval, hv]
        rfl

theorem posSelect_mem (z : String) :
    posSelect z = "Long" ∨ posSelect z = "Side" ∨ posSelect z = "" := by
  unfold posSelect
  split_ifs <;> simp

theorem ffill_mem (l : List String) : ∀ (prev : String),
    (prev = "Long" ∨ prev = "Side") →
    (∀ x ∈ l, x = "Long" ∨ x = "Side" ∨ x = "") →
    ∀ y ∈ ffill prev l, y = "Long" ∨ y = "Side" := by
  induction l with
  | nil => intro prev _ _ y hy; simp [ffill] at hy
  | cons x rest ih =>
      intro prev hprev hl y hy
      have hx : x = "Long" ∨ x = "Side" ∨ x = "" := hl x (by simp)
      have hv : (if x = "" then prev else x) = "Long" ∨
          (if x = "" then prev else x) = "Side" := by
        by_cases hxe : x = ""
        · simpa [hxe] using hprev
        · rcases hx with h | h | h
          · simp [hxe, h]
          · simp [hxe, h]
          · exact absurd h hxe
      rw [ffill] at hy
      rcases List.mem_cons.1 hy with rfl | hy
      · exact hv
      · exact ih _ hv (fun z hz => hl z (by simp [hz])) y hy

theorem buildPosition_mem (zones : List String) :
    ∀ y ∈ buildPosition zones, y = "Long" ∨ y = "Side" := by
  intro y hy
  unfold buildPosition at hy
  cases h : zones.map posSelect with
  | nil => rw [h] at hy; simp at hy
  | cons a rest =>
      rw [h] at hy
      rcases List.mem_cons.1 hy with rfl | hy
      · exact Or.inr rfl
      · refine ffill_mem rest "Side" (Or.inr rfl) ?_ y hy
        intro x hx
        have hxm : x ∈ zones.map posSelect := by
          rw [h]; exact List.mem_cons_of_mem a hx
        obtain ⟨z, _, rfl⟩ := List.mem_map.1 hxm
        exact posSelect_mem z


/-! ### Claim theorems -/

/-- C1 (corrected): in `_build_maxima` the shifted neighbour at a series end is
NaN and a NaN comparison is false, so the first and last periods are never
local maxima; an interior period is a local maximum exactly when its gain is
greater than or equal to both neighbours (ties count).  In particular the gain
series [5, 5, 3] yields a local maximum only at index 1, not at index 0. -/
theorem maxima_rule (gains : List ℚ) :
    (gains ≠ [] → (buildMaxCol gains)[0]? = some none ∧
      (buildMaxCol gains)[gains.length - 1]? = some none) ∧
    (∀ i, 0 < i → i + 1 < gains.length →
      ((buildMaxCol gains)[i]? = some (some (gains.getD i 0)) ↔
        gains.getD (i - 1) 0 ≤ gains.getD i 0 ∧
          gains.getD (i + 1) 0 ≤ gains.getD i 0)) := by
  constructor
  · intro hne
    have h0 : 0 < gains.length := List.length_pos.2 hne
    constructor
    · rw [buildMaxCol_getElem gains 0 h0]
      simp [maxAt, nanLe]
    · have hl : gains.length - 1 < gains.length := by omega
      rw [buildMaxCol_getElem gains _ hl]
      have hnone : gains[gains.length - 1 + 1]? = none :=
        List.getElem?_eq_none (by omega)
      simp [maxAt, hnone, nanLe]
  · intro i hi hilt
    have hii : i < gains.length := by omega
    rw [buildMaxCol_getElem gains i hii]
    have hprev : gains[i - 1]? = some (gains.getD (i - 1) 0) := by
      have h1 : i - 1 < gains.length := by omega
      rw [List.getElem?_eq_getElem h1]
      simp [List.getD_eq_getElem?_getD, List.getElem?_eq_getElem h1]
    have hnext : gains[i + 1]? = some (gains.getD (i + 1) 0) := by
      rw [List.getElem?_eq_getElem hilt]
      simp [List.getD_eq_getElem?_getD, List.getElem?_eq_getElem hilt]
    have hcur : gains.getD i 0 = gains.getD i 0 := rfl
    unfold maxAt
    rw [if_neg (by omega : ¬ i = 0)] at *
    rw [hprev, hnext]
    by_cases hc : gains.getD (i - 1) 0 ≤ gains.getD i 0 ∧
        gains.getD (i + 1) 0 ≤ gains.getD i 0
    · simp [nanLe, hc.1, hc.2]
    · rw [not_and_or] at hc
      rcases hc with hc | hc
      · simp [nanLe, hc]
      · simp [nanLe, hc]

/-- C1 counterexample: the 3-element gain series [5, 5, 3] yields a local
maximum only at index 1; index 0 is excluded by the NaN comparison even though
its gain ties with its single neighbour. -/
theorem maxima_boundary_cex :
    buildMaxCol [5, 5, 3] = [none, some 5, none] ∧ (5 : ℚ) ≤ 5 := by decide

/-- C1 witness: the amended interior rule evaluated on the gain series
[1, 2, 1] at index 1. -/
theorem maxima_rule_witness :
    (buildMaxCol [1, 2, 1])[1]? = some (some (([1, 2, 1] : List ℚ).getD 1 0)) ↔
      (([1, 2, 1] : List ℚ).getD 0 0 ≤ ([1, 2, 1] : List ℚ).getD 1 0 ∧
        ([1, 2, 1] : List ℚ).getD 2 0 ≤ ([1, 2, 1] : List ℚ).getD 1 0) :=
  (maxima_rule [1, 2, 1]).2 1 (by omega) (by simp)

/-- C2 (confirmed): for every position column over Long, Short, Side the
recommendation build succeeds, and after the one-row shift the recommendation
at row t (t at least 2) is the transition-table image of the adjacent
position pair at rows t-2 and t-1; the table sends Side to Long and Short to
Long to Buy, Side to Short, Long to Short and Long to Side to Sell, the
remaining four pairs to Hold (the empty string); a pair outside the nine
listed is matched by no table row and aborts the scan with a logic error. -/
theorem recommendation_transition_table (pos : List String) (hne : pos ≠ [])
    (hmem : ∀ x ∈ pos, x = "Long" ∨ x = "Short" ∨ x = "Side") :
    (∃ out, buildRecommendation pos = some out ∧ out.length = pos.length ∧
      ∀ t, 2 ≤ t → t < pos.length →
        out[t]? = some (posPairRec (pos.getD (t - 2) "") (pos.getD (t - 1) ""))) ∧
    (posPairRec "Side" "Long" = some "B" ∧ posPairRec "Short" "Long" = some "B" ∧
     posPairRec "Side" "Short" = some "S" ∧ posPairRec "Long" "Short" = some "S" ∧
     posPairRec "Long" "Side" = some "S" ∧ posPairRec "Side" "Side" = some "" ∧
     posPairRec "Short" "Short" = some "" ∧ posPairRec "Short" "Side" = some "" ∧
     posPairRec "Long" "Long" = some "") ∧
    (∀ p c, (¬ (p = "Long" ∨ p = "Short" ∨ p = "Side") ∨
             ¬ (c = "Long" ∨ c = "Short" ∨ c = "Side")) →
      posPairRec p c = none) ∧
    (∀ p0 c rest, posPairRec p0 c = none →
      buildRecommendation (p0 :: c :: rest) = none) := by
  refine ⟨?_, by decide, ?_, ?_⟩
  · obtain ⟨out, ho, hlen, _, hidx⟩ := buildRec_spec pos hne hmem
    exact ⟨out, ho, hlen, hidx⟩
  · intro p c h
    rcases h with h | h
    · push_neg at h
      obtain ⟨h1, h2, h3⟩ := h
      simp [posPairRec, h1, h2, h3]
    · push_neg at h
      obtain ⟨h1, h2, h3⟩ := h
      simp [posPairRec, h1, h2, h3]
  · intro p0 c rest h
    simp [buildRecommendation, recScan, h]

/-- C2 witness: the claim applied to the position column Side, Long, Side. -/
theorem recommendation_transition_table_witness :
    (buildRecommendation ["Side", "Long", "Side"]).isSome = true ∧
    posPairRec "Side" "Long" = some "B" := by
  have h := recommendation_transition_table ["Side", "Long", "Side"] (by simp)
    (by
      intro x hx
      simp at hx
      rcases hx with rfl | rfl | rfl
      · exact Or.inr (Or.inr rfl)
      · exact Or.inl rfl
      · exact Or.inr (Or.inr rfl))
  obtain ⟨⟨out, ho, _, _⟩, htab, _, _⟩ := h
  exact ⟨by simp [ho], htab.1⟩

/-- C6 (corrected): for every nonempty zone series the first position is Side,
and the first entry of the shifted recommendation column is the undefined NaN
marker produced by the shift, not the Hold value (the empty string). -/
theorem first_row_side_and_shift (zones : List String) (hne : zones ≠ []) :
    (buildPosition zones)[0]? = some "Side" ∧
    ∃ out, buildRecommendation (buildPosition zones) = some out ∧
      out[0]? = some none := by
  cases zones with
  | nil => exact absurd rfl hne
  | cons z zs =>
      have hbp : buildPosition (z :: zs) =
          "Side" :: ffill "Side" (zs.map posSelect) := by
        simp [buildPosition]
      constructor
      · rw [hbp]; simp
      · have hmem : ∀ x ∈ buildPosition (z :: zs),
            x = "Long" ∨ x = "Short" ∨ x = "Side" := by
          intro x hx
          rcases buildPosition_mem (z :: zs) x hx with h | h
          · exact Or.inl h
          · exact Or.inr (Or.inr h)
        obtain ⟨out, ho, _, h0, _⟩ :=
          buildRec_spec (buildPosition (z :: zs)) (by rw [hbp]; simp) hmem
        exact ⟨out, ho, h0⟩

/-- C6 counterexample: on the zone series [High, High] the shifted
recommendation column is [NaN, Hold]; row 0 holds the NaN marker, which is
not the Hold value. -/
theorem rec_row0_not_hold_cex :
    buildRecommendation (buildPosition ["High", "High"]) = some [none, some ""] ∧
    (none : Option String) ≠ some "" := by decide

/-- C6 witness: the amended claim evaluated on the one-element zone series. -/
theorem first_row_side_and_shift_witness :
    (buildPosition ["High"])[0]? = some "Side" :=
  (first_row_side_and_shift ["High"] (by simp)).1

/-- C10 (confirmed): under the long strategy every position produced by
`_build_position` is Long or Side, Short never occurs; and among position
pairs over Long and Side the only pair the transition table sends to Sell is
Long to Side. -/
theorem position_long_side_only (zones : List String) :
    (∀ y ∈ buildPosition zones, y = "Long" ∨ y = "Side") ∧
    ([("Long", "Long"), ("Long", "Side"), ("Side", "Long"), ("Side", "Side")].filter
      (fun pc => posPairRec pc.1 pc.2 == some "S")) = [("Long", "Side")] :=
  ⟨buildPosition_mem zones, by decide⟩

/-- C10 witness: the claim applied to the zone series [Mid], whose position
column is [Side]. -/
theorem position_long_side_only_witness :
    ("Side" = "Long" ∨ "Side" = "Side") ∧
    ([("Long", "Long"), ("Long", "Side"), ("Side", "Long"), ("Side", "Side")].filter
      (fun pc => posPairRec pc.1 pc.2 == some "S")) = [("Long", "Side")] :=
  ⟨(position_long_side_only ["Mid"]).1 "Side" (by decide),
   (position_long_side_only ["Mid"]).2⟩

/-- C3 (code_bug evaluation): a period with exactly one Buy row and no Sell
row (Buy count exceeds Sell count by exactly one) does not get the
mark-to-market gain the reconciliation rule promises; the lookup of the S
group in `_sum_tx` raises a KeyError and the run terminates (embedded as
`none`). -/
theorem gain_missing_sell_group_fatal :
    countBy [none, some "B", some ""] "B" =
      countBy [none, some "B", some ""] "S" + 1 ∧
    gainForPeriod [none, some "B", some ""] [10, 12, 15] = none := by
  refine ⟨by decide, ?_⟩
  simp [gainForPeriod, sumTx, countBy]

/-- C4 (code_bug evaluation): on the gain series [1, 2, 1, 2, 1] over periods
1..5 the periods 2 and 4 tie for the global maximum, but `_extract_max`
reports only the first winner via idxmax, while the spec requires the full
set of tied periods. -/
theorem global_max_tie_single_winner :
    periodAtGlobalMax 1 [1, 2, 1, 2, 1] = some 2 ∧
    specGlobalMaxPeriods 1 [1, 2, 1, 2, 1] = [2, 4] := by decide

/-- C5 (corrected): when the Buy and Sell counts are both nonzero and differ
by more than one, `_sum_tx` raises no error and returns the raw unreconciled
sums, so a gain is silently computed for the period. -/
theorem sum_tx_imbalance_silent (col : List (Option String)) (closes : List ℚ)
    (hB : countBy col "B" ≠ 0) (hS : countBy col "S" ≠ 0)
    (h1 : countBy col "B" ≠ countBy col "S" + 1)
    (h2 : countBy col "B" + 1 ≠ countBy col "S") :
    sumTx col closes = some (sumBy col closes "B", sumBy col closes "S") := by
  simp [sumTx, hB, hS, h1, h2]

/-- C5 counterexample: a recommendation column with three Buy rows and one
Sell row (imbalance 2) does not fail fatally; the engine computes the gain
(3 - 7) / 1 = -4. -/
theorem imbalance_gain_cex :
    countBy [some "B", some "B", some "S", some "B"] "B" = 3 ∧
    countBy [some "B", some "B", some "S", some "B"] "S" = 1 ∧
    gainForPeriod [some "B", some "B", some "S", some "B"] [1, 2, 3, 4] =
      some (-4) := by
  refine ⟨by decide, by decide, ?_⟩
  simp [gainForPeriod, sumTx, sumBy, countBy]
  norm_num

/-- C5 witness: the amended claim applied to the imbalanced column above. -/
theorem sum_tx_imbalance_silent_witness :
    sumTx [some "B", some "B", some "S", some "B"] [1, 2, 3, 4] =
      some (sumBy [some "B", some "B", some "S", some "B"] [1, 2, 3, 4] "B",
            sumBy [some "B", some "B", some "S", some "B"] [1, 2, 3, 4] "S") :=
  sum_tx_imbalance_silent _ _ (by decide) (by decide) (by decide) (by decide)

theorem ewmaFrom_length (a : ℚ) (l : List ℚ) : ∀ (prev : ℚ),
    (ewmaFrom a prev l).length = l.length := by
  induction l with
  | nil => intro prev; rfl
  | cons y ys ih => intro prev; simp [ewmaFrom, ih]

theorem ewmaFrom_getElem (a : ℚ) (l : List ℚ) : ∀ (prev : ℚ) (j : ℕ),
    j < l.length →
    (ewmaFrom a prev l)[j]? =
      some ((1 - a) * ((prev :: ewmaFrom a prev l).getD j 0) + a * l.getD j 0) := by
  induction l with
  | nil => intro prev j h; simp at h
  | cons y ys ih =>
      intro prev j hj
      cases j with
      | zero => simp [ewmaFrom]
      | succ j =>
          have h := ih ((1 - a) * prev + a * y) j (by simpa using hj)
          simpa [ewmaFrom] using h

/-- C7 (confirmed): the EMA column satisfies the exponential-smoothing
recurrence with smoothing factor 2 / (p + 1) and first value equal to the
first close; the SMA column at row t is the trailing average over the last
min (t + 1) p closes (window below width p near the series start); both
columns have a defined value at every row of the input series. -/
theorem moving_average_columns (p : ℕ) (xs : List ℚ) :
    (buildEMA p xs).length = xs.length ∧
    (buildSMA p xs).length = xs.length ∧
    (∀ x0 rest, xs = x0 :: rest → (buildEMA p xs)[0]? = some x0) ∧
    (∀ t, t + 1 < xs.length → ∃ e c, (buildEMA p xs)[t]? = some e ∧
      xs[t + 1]? = some c ∧
      (buildEMA p xs)[t + 1]? =
        some (((2 : ℚ) / ((p : ℚ) + 1)) * c +
          (1 - (2 : ℚ) / ((p : ℚ) + 1)) * e)) ∧
    (∀ t, t < xs.length →
      (buildSMA p xs)[t]? =
        some (((xs.take (t + 1)).drop (t + 1 - p)).sum / (min (t + 1) p : ℚ)) ∧
      ((xs.take (t + 1)).drop (t + 1 - p)).length = min (t + 1) p) := by
  refine ⟨?_, ?_, ?_, ?_, ?_⟩
  · cases xs with
    | nil => rfl
    | cons x rest => simp [buildEMA, ewmaFrom_length]
  · simp [buildSMA]
  · intro x0 rest h
    subst h
    simp [buildEMA]
  · intro t ht
    cases xs with
    | nil => simp at ht
    | cons x rest =>
        simp only [List.length_cons] at ht
        have hrt : t < rest.length := by omega
        have hgo := ewmaFrom_getElem ((2 : ℚ) / ((p : ℚ) + 1)) rest x t hrt
        refine ⟨(x :: ewmaFrom ((2 : ℚ) / ((p : ℚ) + 1)) x rest).getD t 0,
          rest.getD t 0, ?_, ?_, ?_⟩
        · have htlen : t < (x :: ewmaFrom ((2 : ℚ) / ((p : ℚ) + 1)) x rest).length := by
            simp [ewmaFrom_length]
            omega
          rw [show buildEMA p (x :: rest) =
            x :: ewmaFrom ((2 : ℚ) / ((p : ℚ) + 1)) x rest from rfl]
          rw [List.getElem?_eq_getElem htlen]
          simp [List.getElem?_eq_getElem htlen]
        · rw [List.getElem?_cons_succ, List.getElem?_eq_getElem hrt]
          simp [List.getElem?_eq_getElem hrt]
        · rw [show buildEMA p (x :: rest) =
            x :: ewmaFrom ((2 : ℚ) / ((p : ℚ) + 1)) x rest from rfl]
          rw [List.getElem?_cons_succ, hgo]
          congr 1
          ring
  · intro t ht
    constructor
    · simp [buildSMA, List.getElem?_range ht, smaAt]
    · have h1 : (xs.take (t + 1)).length = t + 1 := by
        simp
        omega
      rw [List.length_drop, h1]
      omega

/-- C7 witness: the EMA of the two-element series [1, 2] with period 2 starts
at the first close. -/
theorem moving_average_columns_witness :
    (buildEMA 2 ([1, 2] : List ℚ))[0]? = some 1 :=
  (moving_average_columns 2 [1, 2]).2.2.1 1 [2] rfl

/-- C8 (code_bug evaluation): the configuration sma without ema satisfies the
at-least-one-flag contract, yet the derived-data build fails: the EMA - SMA
differential is joined whenever the sma flag is set, and without the EMA
column the join raises a KeyError instead of producing the SMA columns and no
differential. -/
theorem sma_only_config_fails :
    (false || true) = true ∧
    buildDerivedData false true true 0 2 [1, 2] =
      .error "Columns EMA or SMA are missing" :=
  ⟨rfl, by simp [buildDerivedData, emptyCols]⟩

/-- C9 (corrected): no short-less-than-long validation exists; for any
nonzero windows, including short at least long, `_build_MAD` computes the
signal column, whose value at row t is 1 exactly when both rolling windows
are complete at t and the short-window trailing average exceeds the
long-window one, and 0 otherwise (an incomplete window compares as false). -/
theorem mad_signal_rule (s l : ℕ) (xs : List ℚ) (hs : s ≠ 0) (hl : l ≠ 0) :
    buildMAD s l xs = .ok (madSignal s l xs) ∧
    ∀ t, t < xs.length →
      (madSignal s l xs)[t]? =
        some (if s ≤ t + 1 ∧ l ≤ t + 1 ∧
            ((xs.take (t + 1)).drop (t + 1 - l)).sum / (l : ℚ) <
              ((xs.take (t + 1)).drop (t + 1 - s)).sum / (s : ℚ)
          then 1 else 0) := by
  constructor
  · simp [buildMAD, hs, hl]
  · intro t ht
    rw [show (madSignal s l xs)[t]? = some (match rollingMeanAt s xs t,
        rollingMeanAt l xs t with
      | some a, some b => if b < a then 1 else 0
      | _, _ => 0) from by simp [madSignal, List.getElem?_range ht]]
    by_cases hst : s ≤ t + 1
    · by_cases hlt : l ≤ t + 1
      · simp only [rollingMeanAt, if_pos (And.intro hs hst), if_pos (And.intro hl hlt)]
        by_cases hcmp : ((xs.take (t + 1)).drop (t + 1 - l)).sum / (l : ℚ) <
            ((xs.take (t + 1)).drop (t + 1 - s)).sum / (s : ℚ)
        · simp [hst, hlt, hcmp]
        · simp [hst, hlt, hcmp]
      · have : ¬ (l ≠ 0 ∧ l ≤ t + 1) := by tauto
        simp [rollingMeanAt, this, hlt, if_pos (And.intro hs hst)]
    · have : ¬ (s ≠ 0 ∧ s ≤ t + 1) := by tauto
      simp [rollingMeanAt, this, hst]

/-- C9 counterexample: with short window 3 and long window 2 (short greater
than long) the MAD sub-analysis does not fail; it returns a signal column. -/
theorem mad_short_ge_long_cex :
    (2 : ℕ) ≤ 3 ∧ buildMAD 3 2 [1, 2, 3, 4] = .ok [0, 0, 0, 0] := by
  refine ⟨by decide, ?_⟩
  simp [buildMAD, madSignal, rollingMeanAt, List.range_succ]
  norm_num

/-- C9 witness: the amended claim applied to windows 2 and 3. -/
theorem mad_signal_rule_witness :
    buildMAD 2 3 [1, 2, 3] = .ok (madSignal 2 3 [1, 2, 3]) :=
  (mad_signal_rule 2 3 [1, 2, 3] (by decide) (by decide)).1
